import Mathlib

/-
Verification of the school student-achievement system (grades, classes,
students, admin users, and the database backup lifecycle).

The entity store is embedded as plain Lean records and lists; SQLAlchemy
queries become list traversals in scan order.  Fallible operations return
`Except ErrKind`, where an `Except.error` result models a raised exception:
the session is never committed on such a path, so the store is unchanged.
The filesystem used by the backup subsystem is embedded as a list of files,
each carrying its directory, name, byte content, creation time and a flag
saying whether `os.remove` would succeed on it.
-/

namespace School

/-- Error kinds of the operations: validation failure, unique-key violation,
missing entity or file, and structural-invariant conflict. -/
inductive ErrKind where
  | validation
  | duplicateKey
  | notFound
  | conflict
  deriving Repr, DecidableEq

/-- One row of the `grades` table. -/
structure GradeRec where
  id : Nat
  gradeNumber : Nat
  deriving Repr, DecidableEq

/-- One row of the `school_classes` table. -/
structure SchoolClassRec where
  id : Nat
  gradeId : Nat
  classLetter : String
  className : String
  classTeacherId : Option Nat
  deriving Repr, DecidableEq

/-- One row of the `students` table (the fields the claims touch). -/
structure StudentRec where
  id : Nat
  schoolClassId : Nat
  fullName : String
  deriving Repr, DecidableEq

/-- One row of the `admin_users` table (the fields the claims touch). -/
structure UserRec where
  id : Nat
  username : String
  role : String
  deriving Repr, DecidableEq

/-- The relational store: the four tables, each in scan order. -/
structure Store where
  grades : List GradeRec
  classes : List SchoolClassRec
  students : List StudentRec
  users : List UserRec
  deriving Repr, DecidableEq

/-- Python truthiness of an optional integer: `None` and `0` are falsy. -/
def pyTruthy : Option Nat → Bool
  | none => false
  | some n => !(n == 0)

/-- Python `str.strip()`: drop leading and trailing whitespace.  Implemented
over the character list so that it evaluates by kernel reduction. -/
def pyStrip (s : String) : String :=
  String.mk (((s.data.dropWhile Char.isWhitespace).reverse.dropWhile Char.isWhitespace).reverse)

/-- Python `str.split()` with no separator: split on whitespace runs,
dropping empty pieces. -/
def pySplit (s : String) : List String :=
  ((s.data.splitOnP Char.isWhitespace).filter (fun t => t ≠ [])).map String.mk

/-- Python `str.lower()`, over the character list. -/
def pyLower (s : String) : String :=
  String.mk (s.data.map Char.toLower)

/-- Intended class-name resolution of a student (`Student.school_class.class_name`
in src/database.py): look the owning class up and read its display name. -/
def student_class_name (classes : List SchoolClassRec) (st : StudentRec) : Option String :=
  (classes.find? (fun c => c.id == st.schoolClassId)).map SchoolClassRec.className

/-- In src/database.py, `Student.class_name` is a plain Python `@property`, not a
mapped column.  At class level `Student.class_name == x` therefore compares the
property object itself against a string, which evaluates to the Python constant
`False`; SQLAlchemy coerces that boolean inside a where-clause to the SQL
constant false, so the condition matches no row.  This function embeds that
constant-false row filter. -/
def classNameColumnFilter (st : StudentRec) (className : String) : Bool :=
  false

/-- find_similar_students from src/database.py: split the input name, try an
exact full-name/class match first, otherwise collect same-class students
sharing at least two case-insensitive name tokens, capped at 5.  Both queries
filter rows through `classNameColumnFilter` (see its doc). -/
def find_similar_students (students : List StudentRec) (full_name class_name : String) :
    List StudentRec :=
  let name_parts := pySplit (pyStrip full_name)
  if name_parts.isEmpty then
    []
  else
    let exact_match := students.filter
      (fun st => st.fullName == pyStrip full_name && classNameColumnFilter st (pyStrip class_name))
    if !exact_match.isEmpty then
      exact_match
    else
      let similar_students :=
        if 2 ≤ name_parts.length then
          (students.filter (fun st => classNameColumnFilter st (pyStrip class_name))).filter
            (fun st =>
              let student_name_parts := ((pySplit st.fullName).map pyLower).eraseDups
              let input_name_parts := name_parts.map pyLower
              2 ≤ (student_name_parts.filter (fun p => input_name_parts.contains p)).length)
        else
          []
      similar_students.take 5

/-- can_export_class_reports from src/app.py: role `admin` may always export;
role `class_teacher` may export only when a truthy class id is supplied and
that class's registered teacher id equals the session user id; every other
role may not.  `user_id` is `session.get("admin_id")`, `class_id` the route
argument (both may be absent). -/
def can_export_class_reports (classes : List SchoolClassRec) (user_role : String)
    (user_id : Option Nat) (class_id : Option Nat) : Bool :=
  if user_role == "admin" then
    true
  else if user_role == "class_teacher" && pyTruthy class_id then
    match classes.find? (fun c => c.id == class_id.getD 0) with
    | some school_class => school_class.classTeacherId == user_id
    | none => false
  else
    false

/-- create_school_class from src/database.py: the grade must exist (else
NotFound), the display name is grade number followed by the letter, and no
class anywhere in the store may already carry that name (else DuplicateKey).
An error result models the raised ValueError: nothing is committed. -/
def create_school_class (s : Store) (grade_id : Nat) (class_letter : String)
    (class_teacher_id : Option Nat) (newId : Nat) : Except ErrKind (Store × SchoolClassRec) :=
  match s.grades.find? (fun g => g.id == grade_id) with
  | none => .error .notFound
  | some grade =>
    match s.classes.find? (fun c => c.className == toString grade.gradeNumber ++ class_letter) with
    | some _ => .error .duplicateKey
    | none =>
      .ok ({ s with classes := s.classes ++
               [⟨newId, grade_id, class_letter, toString grade.gradeNumber ++ class_letter,
                 class_teacher_id⟩] },
           ⟨newId, grade_id, class_letter, toString grade.gradeNumber ++ class_letter,
            class_teacher_id⟩)

/-- No two classes of the store share a display name. -/
def UniqueClassNames (s : Store) : Prop :=
  s.classes.Pairwise (fun a b => a.className ≠ b.className)

/-- createStudent: the class-resolution guard of the admin_student_new route in
src/app.py composed with the name validation of `Student.__init__` in
src/database.py (strip the name, reject fewer than 2 characters).  An error
result models the rejected request or raised ValueError: nothing is added to
the session, so no student row is persisted. -/
def createStudent (s : Store) (school_class_id : Nat) (full_name : String) (newId : Nat) :
    Except ErrKind Store :=
  match s.classes.find? (fun c => c.id == school_class_id) with
  | none => .error .validation
  | some _ =>
    if (pyStrip full_name).length < 2 then
      .error .validation
    else
      .ok { s with students := s.students ++ [⟨newId, school_class_id, pyStrip full_name⟩] }

/-- delete_admin_user from src/database.py: the user must exist; a user of role
`admin` may not be deleted while the store holds at most one admin-role user;
otherwise the row is removed. -/
def delete_admin_user (s : Store) (user_id : Nat) : Except ErrKind Store :=
  match s.users.find? (fun u => u.id == user_id) with
  | none => .error .notFound
  | some user =>
    let admin_count := (s.users.filter (fun u => u.role == "admin")).length
    if user.role == "admin" && admin_count ≤ 1 then
      .error .conflict
    else
      .ok { s with users := s.users.filter (fun u => !(u.id == user_id)) }

/-- One file of the filesystem: its directory, its name, its byte content, its
creation time, and whether `os.remove` would succeed on it (an unwritable
location makes deletion fail). -/
structure FSFile where
  dir : String
  name : String
  content : String
  ctime : Nat
  deletable : Bool
  deriving Repr, DecidableEq

/-- The filesystem: its files, in directory-listing order. -/
abbrev FS := List FSFile

/-- Two directory entries denote the same path. -/
def samePath (a b : FSFile) : Bool :=
  a.dir == b.dir && a.name == b.name

/-- Look a path up (`os.path.exists` plus reading the entry). -/
def fsFind (fs : FS) (d n : String) : Option FSFile :=
  fs.find? (fun f => f.dir == d && f.name == n)

/-- os.path.exists on a path. -/
def fsExists (fs : FS) (d n : String) : Bool :=
  fs.any (fun f => f.dir == d && f.name == n)

/-- shutil.copy2 towards a destination path: overwrite the destination's bytes
when the path exists (the write refreshes its change time), otherwise create
the file; newly created files are deletable. -/
def writeFile (fs : FS) (d n : String) (content : String) (now : Nat) : FS :=
  if fsExists fs d n then
    fs.map (fun f =>
      if f.dir == d && f.name == n then { f with content := content, ctime := now } else f)
  else
    fs ++ [⟨d, n, content, now, true⟩]

/-- A backup file name as the source tests it: `app_backup_` in front and `.db`
behind (`f.startswith("app_backup_") and f.endswith(".db")`). -/
def isBackupName (n : String) : Bool :=
  "app_backup_".data.isPrefixOf n.data && ".db".data.isSuffixOf n.data

/-- The directory holding the live store file `app.db` (the process working
directory). -/
def dbDir : String := ""

/-- The live store file name. -/
def dbName : String := "app.db"

/-- The name `f"app_backup_{timestamp}.db"` given to a new backup. -/
def backupFileName (ts : String) : String :=
  "app_backup_" ++ ts ++ ".db"

/-- The descending-by-key order of the source's `sort(key=..., reverse=True)`
calls. -/
def keyDesc (key : α → Nat) (a b : α) : Prop :=
  key b ≤ key a

instance (key : α → Nat) : DecidableRel (keyDesc key) :=
  fun a b => Nat.decLe (key b) (key a)

instance (key : α → Nat) : IsTotal α (keyDesc key) :=
  ⟨fun a b => Nat.le_total (key b) (key a)⟩

instance (key : α → Nat) : IsTrans α (keyDesc key) :=
  ⟨fun _ _ _ hab hbc => Nat.le_trans hbc hab⟩

/-- Python's `list.sort(key=..., reverse=True)`: a stable descending sort by the
key.  A stable sort is extensionally unique, and insertion sort with this
non-strict order is stable, so it embeds Python's sort exactly. -/
def sortDescBy (key : α → Nat) (l : List α) : List α :=
  l.insertionSort (keyDesc key)

/-- cleanup_old_backups from src/database.py: collect the `app_backup_*.db`
files of the directory, order them by creation time newest-first, and remove
every file beyond the first `keep_count`; a failing `os.remove` is swallowed,
so an undeletable file stays while the remaining old files are still removed.
A missing directory has no entries, so the filesystem is returned unchanged,
as the source's early return does. -/
def cleanup_old_backups (fs : FS) (backup_dir : String) (keep_count : Nat) : FS :=
  let backup_files := fs.filter (fun f => f.dir == backup_dir && isBackupName f.name)
  let old := (sortDescBy FSFile.ctime backup_files).drop keep_count
  fs.filter (fun f => !(old.any (fun v => samePath v f) && f.deletable))

/-- create_database_backup from src/database.py: require the live store file
(else NotFound, nothing written), copy its bytes into the backup directory
under the timestamp-stamped name, prune the directory down to the 10 newest
backups, and return the backup file name. -/
def create_database_backup (fs : FS) (backup_dir : String) (ts : String) (now : Nat) :
    Except ErrKind (FS × String) :=
  match fsFind fs dbDir dbName with
  | none => .error .notFound
  | some live =>
    .ok (cleanup_old_backups (writeFile fs backup_dir (backupFileName ts) live.content now)
           backup_dir 10,
         backupFileName ts)

/-- The filesystem after create_database_backup, unchanged when it failed. -/
def createBackupFS (fs : FS) (backup_dir : String) (ts : String) (now : Nat) : FS :=
  match create_database_backup fs backup_dir ts now with
  | .ok (fs1, _) => fs1
  | .error _ => fs

/-- One row of the listing returned by get_backup_list. -/
structure BackupInfo where
  filename : String
  dir : String
  size : Nat
  created : Nat
  deriving Repr, DecidableEq

/-- get_backup_list from src/database.py: stat every `app_backup_*.db` file of
the directory and return the entries newest-first; a missing directory yields
the empty list (no entries). -/
def get_backup_list (fs : FS) (backup_dir : String) : List BackupInfo :=
  sortDescBy BackupInfo.created
    ((fs.filter (fun f => f.dir == backup_dir && isBackupName f.name)).map
      (fun f => ⟨f.name, f.dir, f.content.length, f.ctime⟩))

/-- restore_database_from_backup from src/database.py: require the file at the
given path (else NotFound, nothing touched); take a fresh backup of the current
live store via create_database_backup — into the default `backups` directory,
with its keep-10 pruning — then copy the requested path's bytes over the live
store file.  The result pairs the filesystem after the run with `some` error
when an exception was raised at that point; mutations already performed stay,
as they do when a Python exception propagates. -/
def restore_database_from_backup (fs : FS) (pdir pname : String) (ts : String) (now : Nat) :
    FS × Option ErrKind :=
  if fsExists fs pdir pname = false then
    (fs, some .notFound)
  else
    match create_database_backup fs "backups" ts now with
    | .error e => (fs, some e)
    | .ok (fs1, _) =>
      match fsFind fs1 pdir pname with
      | none => (fs1, some .notFound)
      | some src => (writeFile fs1 dbDir dbName src.content now, none)

/-- The `app_backup_*.db` files of a directory, in listing order. -/
def backupsIn (fs : FS) (dir : String) : List FSFile :=
  fs.filter (fun f => f.dir == dir && isBackupName f.name)

/-- How many backups of the directory were created strictly later than `f`. -/
def newerCount (fs : FS) (dir : String) (f : FSFile) : Nat :=
  ((backupsIn fs dir).filter (fun g => f.ctime < g.ctime)).length

/-- A real filesystem: no two entries share a path. -/
def WellFormedFS (fs : FS) : Prop :=
  fs.Pairwise (fun a b => ¬(a.dir = b.dir ∧ a.name = b.name))

/-- The backups of the directory carry pairwise distinct creation times (second
granularity makes ties possible in principle; the code orders ties
arbitrarily, so the claims are read under distinct times). -/
def DistinctBackupCtimes (fs : FS) (dir : String) : Prop :=
  (backupsIn fs dir).Pairwise (fun a b => a.ctime ≠ b.ctime)

/-- Demonstration directory for retention pruning: one foreign file plus
fifteen backups with creation times 1..15, the one created at time 3
undeletable. -/
def pruneDemoFS : FS :=
  ⟨"backups", "notes.txt", "keep me", 0, true⟩ ::
    (List.range 15).map (fun i =>
      ⟨"backups", "app_backup_" ++ toString (i + 1) ++ ".db", "bytes" ++ toString (i + 1),
       i + 1, !(i + 1 == 3)⟩)

/-- Demonstration state for restore: the live store (bytes `current`, change
time 11) plus ten deletable backups with creation times 1..10. -/
def restoreDemoFS : FS :=
  ⟨dbDir, dbName, "current", 11, true⟩ ::
    (List.range 10).map (fun i =>
      ⟨"backups", "app_backup_" ++ toString (i + 1) ++ ".db", "old" ++ toString (i + 1),
       i + 1, true⟩)

/-- The round trip of the spec, pre-restore state: create a backup stamped ts1
at time t1, then let the caller overwrite the live store with bytes c1 at time
t2. -/
def roundTripPre (fs : FS) (ts1 : String) (t1 : Nat) (c1 : String) (t2 : Nat) : FS :=
  writeFile (createBackupFS fs "backups" ts1 t1) dbDir dbName c1 t2

/-- The round trip's final state and error report: restore, at time t3, the
path the backup call returned (the automatic pre-restore backup is stamped
ts2). -/
def roundTripRun (fs : FS) (ts1 : String) (t1 : Nat) (c1 : String) (t2 : Nat)
    (ts2 : String) (t3 : Nat) : FS × Option ErrKind :=
  restore_database_from_backup (roundTripPre fs ts1 t1 c1 t2) "backups" (backupFileName ts1)
    ts2 t3

/-- C2: find_similar_students never returns anything.  The class-name condition
of both of its queries compares the Python property object `Student.class_name`
with a string, a constant false, so the exact-match query and the same-class
scan each select no rows.  At the concrete failing input — a store holding a
student named exactly "Ivan Petrov" whose class resolves to "10A" — the claim
expects the exact match alone, yet the function returns the empty list. -/
theorem find_similar_students_code_bug :
    (∀ students fn cn, find_similar_students students fn cn = []) ∧
    (([⟨1, 1, "Ivan Petrov"⟩] : List StudentRec).filter
        (fun st => st.fullName == "Ivan Petrov" &&
          student_class_name [⟨1, 1, "A", "10A", some 5⟩] st == some "10A")).length = 1 ∧
    find_similar_students [⟨1, 1, "Ivan Petrov"⟩] "Ivan Petrov" "10A" = [] := by
  have hall : ∀ students fn cn, find_similar_students students fn cn = [] := by
    intro students fn cn
    unfold find_similar_students
    simp [classNameColumnFilter]
  exact ⟨hall, by decide, hall _ _ _⟩

/-- C3: canExportClass — role admin always may export; for role class_teacher,
applied to an existing class (a nonzero id the store resolves), the check
succeeds exactly when that class's registered teacher id equals the user id;
any other role may never export. -/
theorem can_export_class_reports_spec (classes : List SchoolClassRec) (r : String)
    (u : Option Nat) (cid : Nat) (sc : SchoolClassRec)
    (hsc : classes.find? (fun c => c.id == cid) = some sc) (hcid : cid ≠ 0) :
    can_export_class_reports classes "admin" u (some cid) = true ∧
    (can_export_class_reports classes "class_teacher" u (some cid) = true ↔
      sc.classTeacherId = u) ∧
    (r ≠ "admin" → r ≠ "class_teacher" →
      can_export_class_reports classes r u (some cid) = false) := by
  refine ⟨rfl, ?_, ?_⟩
  · have h2 : pyTruthy (some cid) = true := by
      simp [pyTruthy, hcid]
    unfold can_export_class_reports
    rw [if_neg (by decide), if_pos (by simp [h2])]
    simp only [Option.getD_some, hsc]
    simp
  · intro hr1 hr2
    unfold can_export_class_reports
    have h1 : (r == "admin") = false := by simp [hr1]
    have h2 : (r == "class_teacher") = false := by simp [hr2]
    simp [h1, h2]

/-- C3 witness: on a store with one class (id 7, teacher id 5), the admin role
exports, the class teacher with id 5 exports their own class, and role deputy
may not export. -/
theorem can_export_class_reports_spec_witness :
    can_export_class_reports [⟨7, 1, "A", "10A", some 5⟩] "admin" (some 9) (some 7) = true ∧
    can_export_class_reports [⟨7, 1, "A", "10A", some 5⟩] "class_teacher" (some 5) (some 7)
      = true ∧
    can_export_class_reports [⟨7, 1, "A", "10A", some 5⟩] "deputy" (some 5) (some 7) = false :=
  ⟨(can_export_class_reports_spec [⟨7, 1, "A", "10A", some 5⟩] "deputy" (some 9) 7
      ⟨7, 1, "A", "10A", some 5⟩ (by decide) (by decide)).1,
   (can_export_class_reports_spec [⟨7, 1, "A", "10A", some 5⟩] "deputy" (some 5) 7
      ⟨7, 1, "A", "10A", some 5⟩ (by decide) (by decide)).2.1.mpr rfl,
   (can_export_class_reports_spec [⟨7, 1, "A", "10A", some 5⟩] "deputy" (some 5) 7
      ⟨7, 1, "A", "10A", some 5⟩ (by decide) (by decide)).2.2 (by decide) (by decide)⟩

/-- C9: for role class_teacher an absent class id (None) or a falsy one (0)
always denies export, whatever classes the store holds and whoever the user
is — only an explicit owned class id can grant it. -/
theorem can_export_class_reports_needs_class_id (classes : List SchoolClassRec)
    (u : Option Nat) :
    can_export_class_reports classes "class_teacher" u none = false ∧
    can_export_class_reports classes "class_teacher" u (some 0) = false := by
  constructor <;> rfl

/-- C4: createClass fails with NotFound when the grade is missing; it fails
with DuplicateKey when any class anywhere in the store already carries the
derived display name (grade number followed by the letter); and a successful
creation preserves global uniqueness of class display names.  An error result
is an uncommitted session: the store is unchanged. -/
theorem create_school_class_spec (s : Store) (grade_id : Nat) (letter : String)
    (tid : Option Nat) (newId : Nat) :
    (s.grades.find? (fun g => g.id == grade_id) = none →
       create_school_class s grade_id letter tid newId = .error .notFound) ∧
    (∀ grade, s.grades.find? (fun g => g.id == grade_id) = some grade →
       (∃ c ∈ s.classes, c.className = toString grade.gradeNumber ++ letter) →
       create_school_class s grade_id letter tid newId = .error .duplicateKey) ∧
    (∀ s' sc, create_school_class s grade_id letter tid newId = .ok (s', sc) →
       UniqueClassNames s → UniqueClassNames s') := by
  refine ⟨?_, ?_, ?_⟩
  · intro h
    unfold create_school_class
    rw [h]
  · intro grade hg hex
    obtain ⟨c, hc, hname⟩ := hex
    cases hfind : s.classes.find? (fun c => c.className == toString grade.gradeNumber ++ letter)
      with
    | some v => simp [create_school_class, hg, hfind]
    | none =>
      rw [List.find?_eq_none] at hfind
      exact absurd (by simpa using hname) (by simpa using hfind c hc)
  · intro s' sc h hu
    unfold create_school_class at h
    split at h
    · exact absurd h (by simp)
    · rename_i grade hg
      split at h
      · exact absurd h (by simp)
      · rename_i hfind
        rw [List.find?_eq_none] at hfind
        simp only [Except.ok.injEq, Prod.mk.injEq] at h
        obtain ⟨h1, h2⟩ := h
        subst h1
        unfold UniqueClassNames at hu ⊢
        simp only []
        rw [List.pairwise_append]
        refine ⟨hu, List.pairwise_singleton _ _, ?_⟩
        intro a ha b hb
        simp only [List.mem_singleton] at hb
        subst hb
        have := hfind a ha
        simpa using this

/-- C4 witness: on a store with grade 10 (id 1) and the class "10A", creating
"10Б" succeeds and keeps display names unique, creating another "A" of grade 10
fails with DuplicateKey, and referring to a missing grade fails with
NotFound. -/
theorem create_school_class_spec_witness :
    create_school_class ⟨[⟨1, 10⟩], [⟨1, 1, "A", "10A", none⟩], [], []⟩ 2 "A" none 3
      = .error .notFound ∧
    create_school_class ⟨[⟨1, 10⟩], [⟨1, 1, "A", "10A", none⟩], [], []⟩ 1 "A" none 3
      = .error .duplicateKey ∧
    UniqueClassNames ⟨[⟨1, 10⟩],
      [⟨1, 1, "A", "10A", none⟩, ⟨3, 1, "Б", "10Б", none⟩], [], []⟩ :=
  ⟨(create_school_class_spec ⟨[⟨1, 10⟩], [⟨1, 1, "A", "10A", none⟩], [], []⟩ 2 "A" none 3).1
      (by decide),
   (create_school_class_spec ⟨[⟨1, 10⟩], [⟨1, 1, "A", "10A", none⟩], [], []⟩ 1 "A" none 3).2.1
      ⟨1, 10⟩ (by decide) ⟨⟨1, 1, "A", "10A", none⟩, by decide, by decide⟩,
   (create_school_class_spec ⟨[⟨1, 10⟩], [⟨1, 1, "A", "10A", none⟩], [], []⟩ 1 "Б" none 3).2.2
      ⟨[⟨1, 10⟩], [⟨1, 1, "A", "10A", none⟩, ⟨3, 1, "Б", "10Б", none⟩], [], []⟩
      ⟨3, 1, "Б", "10Б", none⟩ (by rfl)
      (by unfold UniqueClassNames; decide)⟩

/-- C7: createStudent fails with Validation when the trimmed full name is
shorter than 2 characters, and fails with Validation when the class id does
not resolve to an existing class; an error result is an uncommitted session,
so no student row is persisted on failure. -/
theorem createStudent_spec (s : Store) (cid : Nat) (name : String) (newId : Nat) :
    ((pyStrip name).length < 2 → createStudent s cid name newId = .error .validation) ∧
    (s.classes.find? (fun c => c.id == cid) = none →
       createStudent s cid name newId = .error .validation) := by
  constructor
  · intro h
    unfold createStudent
    cases hfind : s.classes.find? (fun c => c.id == cid) with
    | none => rfl
    | some _ => simp [h]
  · intro h
    unfold createStudent
    rw [h]

/-- C7 witness: a one-character name is rejected, and a dangling class id is
rejected, both with Validation. -/
theorem createStudent_spec_witness :
    createStudent ⟨[⟨1, 10⟩], [⟨1, 1, "A", "10A", none⟩], [], []⟩ 1 " X " 5
      = .error .validation ∧
    createStudent ⟨[⟨1, 10⟩], [⟨1, 1, "A", "10A", none⟩], [], []⟩ 99 "Ivan Petrov" 5
      = .error .validation :=
  ⟨(createStudent_spec ⟨[⟨1, 10⟩], [⟨1, 1, "A", "10A", none⟩], [], []⟩ 1 " X " 5).1
      (by decide),
   (createStudent_spec ⟨[⟨1, 10⟩], [⟨1, 1, "A", "10A", none⟩], [], []⟩ 99 "Ivan Petrov" 5).2
      (by decide)⟩

/-- C8: deleteUser on an admin-role user fails with Conflict when that user is
the last remaining admin-role user (the error is an uncommitted session: the
store is unchanged), and succeeds when at least two admin-role users exist. -/
theorem delete_admin_user_spec (s : Store) (uid : Nat) (user : UserRec)
    (hfind : s.users.find? (fun u => u.id == uid) = some user)
    (hrole : user.role = "admin") :
    ((s.users.filter (fun u => u.role == "admin")).length = 1 →
       delete_admin_user s uid = .error .conflict) ∧
    (2 ≤ (s.users.filter (fun u => u.role == "admin")).length →
       delete_admin_user s uid
         = .ok { s with users := s.users.filter (fun u => !(u.id == uid)) }) := by
  constructor
  · intro hcount
    unfold delete_admin_user
    rw [hfind]
    simp [hrole, hcount]
  · intro hcount
    unfold delete_admin_user
    rw [hfind]
    have : ¬ (s.users.filter (fun u => u.role == "admin")).length ≤ 1 := by omega
    simp [hrole, this]

/-- C8 witness: with a single admin-role user, deleting them fails with
Conflict; with two admin-role users, deleting one succeeds and removes only
that row. -/
theorem delete_admin_user_spec_witness :
    delete_admin_user ⟨[], [], [], [⟨1, "root", "admin"⟩, ⟨2, "t", "teacher"⟩]⟩ 1
      = .error .conflict ∧
    delete_admin_user ⟨[], [], [], [⟨1, "root", "admin"⟩, ⟨2, "boss", "admin"⟩]⟩ 1
      = .ok ⟨[], [], [], [⟨2, "boss", "admin"⟩]⟩ :=
  ⟨(delete_admin_user_spec ⟨[], [], [], [⟨1, "root", "admin"⟩, ⟨2, "t", "teacher"⟩]⟩ 1
      ⟨1, "root", "admin"⟩ (by decide) rfl).1 (by decide),
   (delete_admin_user_spec ⟨[], [], [], [⟨1, "root", "admin"⟩, ⟨2, "boss", "admin"⟩]⟩ 1
      ⟨1, "root", "admin"⟩ (by decide) rfl).2 (by decide)⟩

/-- Stable descending sorts place an element beyond the first `n` positions
exactly when at least `n` elements carry a strictly larger key, as long as the
keys are pairwise distinct. -/
theorem mem_drop_sorted_iff {α : Type} (key : α → Nat) (l : List α) (n : Nat) (f : α)
    (hs : List.Sorted (keyDesc key) l) (hd : l.Pairwise (fun a b => key a ≠ key b))
    (hf : f ∈ l) :
    f ∈ l.drop n ↔ n ≤ (l.filter (fun g => key f < key g)).length := by
  induction l generalizing n with
  | nil => cases hf
  | cons x xs ih =>
    rw [List.sorted_cons] at hs
    rw [List.pairwise_cons] at hd
    cases n with
    | zero => simp [hf]
    | succ m =>
      rw [List.drop_succ_cons]
      by_cases hfx : f = x
      · subst hfx
        have hnot : f ∉ xs.drop m := by
          intro hmem
          exact hd.1 f (List.mem_of_mem_drop hmem) rfl
        have hfilter : (f :: xs).filter (fun g => key f < key g) = [] := by
          rw [List.filter_eq_nil_iff]
          intro a ha
          rcases List.mem_cons.mp ha with h | h
          · subst h; simp
          · have h1 := hs.1 a h
            simp only [keyDesc] at h1
            simp only [decide_eq_true_eq]
            omega
        simp [hnot, hfilter]
      · have hfxs : f ∈ xs := (List.mem_cons.mp hf).resolve_left hfx
        have h1 : key f ≤ key x := hs.1 f hfxs
        have h2 : key x ≠ key f := hd.1 f hfxs
        have hkey : key f < key x := by omega
        rw [List.filter_cons_of_pos (by simpa using hkey), List.length_cons,
          Nat.succ_le_succ_iff]
        exact ih m hs.2 hd.2 hfxs

/-- Pruning never invents files: the pruned filesystem's entries all come from
the input. -/
theorem cleanup_subset (fs : FS) (dir : String) (keep : Nat) (f : FSFile)
    (hf : f ∈ cleanup_old_backups fs dir keep) : f ∈ fs := by
  unfold cleanup_old_backups at hf
  exact (List.mem_filter.mp hf).1

/-- Membership in the pruned filesystem, unfolded: a file survives unless it is
a deletable path match of some entry beyond the first `keep` of the newest-first
backup ordering. -/
theorem cleanup_mem_elem (fs : FS) (dir : String) (keep : Nat) (f : FSFile)
    (hf : f ∈ fs) :
    f ∈ cleanup_old_backups fs dir keep ↔
      ¬((((sortDescBy FSFile.ctime (backupsIn fs dir)).drop keep).any
          (fun v => samePath v f)) = true ∧ f.deletable = true) := by
  unfold cleanup_old_backups
  rw [show (List.filter (fun f => f.dir == dir && isBackupName f.name) fs)
      = backupsIn fs dir from rfl]
  rw [List.mem_filter]
  simp only [hf, true_and, Bool.not_eq_eq_eq_not, Bool.not_true, Bool.and_eq_false_iff]
  constructor
  · intro h hc
    rcases h with h | h
    · rw [hc.1] at h; cases h
    · rw [hc.2] at h; cases h
  · intro h
    by_cases h1 : ((sortDescBy FSFile.ctime (backupsIn fs dir)).drop keep).any
        (fun v => samePath v f) = true
    · by_cases h2 : f.deletable = true
      · exact absurd ⟨h1, h2⟩ h
      · exact Or.inr (by simpa using h2)
    · exact Or.inl (by simpa using h1)

/-- Under a well-formed filesystem a path match against the prune victims is a
genuine membership. -/
theorem any_samePath_iff (fs : FS) (dir : String) (keep : Nat) (f : FSFile)
    (hwf : WellFormedFS fs) (hf : f ∈ fs) :
    (((sortDescBy FSFile.ctime (backupsIn fs dir)).drop keep).any (fun v => samePath v f)
        = true) ↔
      f ∈ (sortDescBy FSFile.ctime (backupsIn fs dir)).drop keep := by
  rw [List.any_eq_true]
  constructor
  · rintro ⟨v, hv, hvp⟩
    have hvB : v ∈ backupsIn fs dir := by
      have h1 := List.mem_of_mem_drop hv
      simp only [sortDescBy, List.mem_insertionSort] at h1
      exact h1
    have hvfs : v ∈ fs := (List.mem_filter.mp hvB).1
    have hpath : v.dir = f.dir ∧ v.name = f.name := by
      simpa [samePath] using hvp
    by_cases hvf : v = f
    · exact hvf ▸ hv
    · have hpw : fs.Pairwise (fun a b => ¬(a.dir = b.dir ∧ a.name = b.name)) := hwf
      have hsymP : Symmetric (fun a b : FSFile => ¬(a.dir = b.dir ∧ a.name = b.name)) :=
        fun _ _ hab h2 => hab ⟨h2.1.symm, h2.2.symm⟩
      exact absurd hpath (hpw.forall hsymP hvfs hf hvf)
  · intro hfd
    exact ⟨f, hfd, by simp [samePath]⟩

/-- The retention characterization: under a well-formed filesystem whose
backups in the directory carry distinct creation times, a file survives
cleanup_old_backups exactly unless it is a deletable backup of that directory
with at least `keep` strictly newer backups beside it. -/
theorem cleanup_keeps_iff (fs : FS) (dir : String) (keep : Nat) (f : FSFile)
    (hwf : WellFormedFS fs) (hdist : DistinctBackupCtimes fs dir) (hf : f ∈ fs) :
    f ∈ cleanup_old_backups fs dir keep ↔
      ¬(f.dir = dir ∧ isBackupName f.name = true ∧ f.deletable = true ∧
        keep ≤ newerCount fs dir f) := by
  rw [cleanup_mem_elem fs dir keep f hf, any_samePath_iff fs dir keep f hwf hf]
  have hperm : (sortDescBy FSFile.ctime (backupsIn fs dir)).Perm (backupsIn fs dir) :=
    List.perm_insertionSort _ _
  by_cases hfB : f ∈ backupsIn fs dir
  · have hdistP : (backupsIn fs dir).Pairwise (fun a b => a.ctime ≠ b.ctime) := hdist
    have hdistS : (sortDescBy FSFile.ctime (backupsIn fs dir)).Pairwise
        (fun a b => a.ctime ≠ b.ctime) :=
      (hperm.pairwise_iff (fun he => Ne.symm he)).mpr hdistP
    have hfS : f ∈ sortDescBy FSFile.ctime (backupsIn fs dir) := by
      simp only [sortDescBy, List.mem_insertionSort]
      exact hfB
    have hdrop := mem_drop_sorted_iff FSFile.ctime
      (sortDescBy FSFile.ctime (backupsIn fs dir)) keep f
      (List.sorted_insertionSort _ _) hdistS hfS
    have hlen : ((sortDescBy FSFile.ctime (backupsIn fs dir)).filter
        (fun g => f.ctime < g.ctime)).length
        = newerCount fs dir f :=
      (hperm.filter _).length_eq
    have hdn : f.dir = dir ∧ isBackupName f.name = true := by
      simpa using (List.mem_filter.mp hfB).2
    rw [hdrop, hlen]
    simp only [hdn.1, hdn.2, true_and]
    tauto
  · have hfS : f ∉ (sortDescBy FSFile.ctime (backupsIn fs dir)).drop keep := by
      intro h
      have h1 := List.mem_of_mem_drop h
      simp only [sortDescBy, List.mem_insertionSort] at h1
      exact hfB h1
    have hdn : ¬(f.dir = dir ∧ isBackupName f.name = true) := by
      intro hc
      exact hfB (List.mem_filter.mpr ⟨hf, by simp [hc.1, hc.2]⟩)
    constructor
    · intro _ hc
      exact hdn ⟨hc.1, hc.2.1⟩
    · intro _ hc
      exact hfS hc.1

/-- Pruning leaves every file whose name does not match the backup pattern or
which lives outside the directory untouched. -/
theorem cleanup_frame (fs : FS) (dir : String) (keep : Nat) (f : FSFile)
    (hf : f ∈ fs) (hnb : ¬(f.dir = dir ∧ isBackupName f.name = true)) :
    f ∈ cleanup_old_backups fs dir keep := by
  rw [cleanup_mem_elem fs dir keep f hf]
  rintro ⟨hany, -⟩
  rw [List.any_eq_true] at hany
  obtain ⟨v, hv, hvp⟩ := hany
  have hvB : v ∈ backupsIn fs dir := by
    have h1 := List.mem_of_mem_drop hv
    simp only [sortDescBy, List.mem_insertionSort] at h1
    exact h1
  have h2 : v.dir = dir ∧ isBackupName v.name = true := by
    simpa using (List.mem_filter.mp hvB).2
  have hpath : v.dir = f.dir ∧ v.name = f.name := by
    simpa [samePath] using hvp
  exact hnb ⟨hpath.1 ▸ h2.1, hpath.2 ▸ h2.2⟩

/-- The name given to a fresh backup always matches the backup pattern. -/
theorem isBackupName_backupFileName (ts : String) : isBackupName (backupFileName ts) = true := by
  unfold isBackupName backupFileName
  apply Bool.and_eq_true_iff.mpr
  constructor
  · rw [List.isPrefixOf_iff_prefix, String.data_append, String.data_append]
    rw [List.append_assoc]
    exact List.prefix_append _ _
  · rw [List.isSuffixOf_iff_suffix, String.data_append, String.data_append]
    exact List.suffix_append _ _

/-- Path non-existence, element-wise. -/
theorem fsExists_eq_false_iff (fs : FS) (d n : String) :
    fsExists fs d n = false ↔ ∀ f ∈ fs, ¬(f.dir = d ∧ f.name = n) := by
  unfold fsExists
  rw [← Bool.not_eq_true, List.any_eq_true]
  constructor
  · intro h f hf hc
    exact h ⟨f, hf, by simp [hc.1, hc.2]⟩
  · rintro h ⟨f, hf, hp⟩
    exact h f hf (by simpa using hp)

/-- On a well-formed filesystem, looking a path up returns exactly the entry
with that path. -/
theorem fsFind_eq_some_iff (fs : FS) (d n : String) (f : FSFile) (hwf : WellFormedFS fs) :
    fsFind fs d n = some f ↔ f ∈ fs ∧ f.dir = d ∧ f.name = n := by
  unfold fsFind
  constructor
  · intro h
    refine ⟨List.mem_of_find?_eq_some h, ?_⟩
    have := List.find?_some h
    simpa using this
  · rintro ⟨hf, hd, hn⟩
    have h1 : (fs.find? (fun g => g.dir == d && g.name == n)).isSome := by
      rw [List.find?_isSome]
      exact ⟨f, hf, by simp [hd, hn]⟩
    obtain ⟨g, hg⟩ := Option.isSome_iff_exists.mp h1
    have hgmem : g ∈ fs := List.mem_of_find?_eq_some hg
    have hgp : g.dir = d ∧ g.name = n := by simpa using List.find?_some hg
    by_cases hgf : g = f
    · exact hgf ▸ hg
    · have hpw : fs.Pairwise (fun a b => ¬(a.dir = b.dir ∧ a.name = b.name)) := hwf
      have hsymP : Symmetric (fun a b : FSFile => ¬(a.dir = b.dir ∧ a.name = b.name)) :=
        fun _ _ hab h2 => hab ⟨h2.1.symm, h2.2.symm⟩
      exact absurd ⟨hgp.1.trans hd.symm, hgp.2.trans hn.symm⟩
        (hpw.forall hsymP hgmem hf hgf)

/-- Writing a fresh path appends the new file to the listing. -/
theorem writeFile_append (fs : FS) (d n content : String) (now : Nat)
    (h : fsExists fs d n = false) :
    writeFile fs d n content now = fs ++ [⟨d, n, content, now, true⟩] := by
  unfold writeFile
  rw [h]
  simp

/-- Appending a file at a fresh path keeps the filesystem well-formed. -/
theorem wellFormed_append (fs : FS) (g : FSFile) (h : fsExists fs g.dir g.name = false)
    (hwf : WellFormedFS fs) : WellFormedFS (fs ++ [g]) := by
  have hpw : fs.Pairwise (fun a b => ¬(a.dir = b.dir ∧ a.name = b.name)) := hwf
  show (fs ++ [g]).Pairwise _
  rw [List.pairwise_append]
  refine ⟨hpw, List.pairwise_singleton _ _, ?_⟩
  intro a ha b hb
  simp only [List.mem_singleton] at hb
  subst hb
  exact (fsExists_eq_false_iff fs b.dir b.name).mp h a ha

/-- Pruning keeps the filesystem well-formed. -/
theorem wellFormed_cleanup (fs : FS) (dir : String) (keep : Nat) (hwf : WellFormedFS fs) :
    WellFormedFS (cleanup_old_backups fs dir keep) := by
  have hpw : fs.Pairwise (fun a b => ¬(a.dir = b.dir ∧ a.name = b.name)) := hwf
  show (cleanup_old_backups fs dir keep).Pairwise _
  unfold cleanup_old_backups
  exact hpw.sublist (List.filter_sublist _)

/-- C5: pruning orders the directory's backups by creation time descending and
deletes exactly the deletable ones beyond the first `keep`: no file is ever
created, an undeletable file always survives without aborting the rest, and a
file survives precisely unless it is a deletable `app_backup_*.db` file of the
directory with at least `keep` backups created strictly later. -/
theorem cleanup_old_backups_spec (fs : FS) (dir : String) (keep : Nat)
    (hwf : WellFormedFS fs) (hdist : DistinctBackupCtimes fs dir) :
    (∀ f ∈ cleanup_old_backups fs dir keep, f ∈ fs) ∧
    (∀ f ∈ fs, f.deletable = false → f ∈ cleanup_old_backups fs dir keep) ∧
    (∀ f ∈ fs,
       (f ∈ cleanup_old_backups fs dir keep ↔
         ¬(f.dir = dir ∧ isBackupName f.name = true ∧ f.deletable = true ∧
           keep ≤ newerCount fs dir f))) := by
  refine ⟨fun f hf => cleanup_subset fs dir keep f hf, ?_, ?_⟩
  · intro f hf hdel
    rw [cleanup_keeps_iff fs dir keep f hwf hdist hf]
    rintro ⟨-, -, hd, -⟩
    rw [hdel] at hd
    cases hd
  · intro f hf
    exact cleanup_keeps_iff fs dir keep f hwf hdist hf

/-- C5 witness: of the fifteen backups, pruning with keep 10 leaves exactly the
ten most recently created (times 6..15) together with the undeletable old one
(time 3) and the foreign file; the theorem applied to the undeletable file
shows its survival. -/
theorem cleanup_old_backups_spec_witness :
    cleanup_old_backups pruneDemoFS "backups" 10
      = pruneDemoFS.filter
          (fun f => !isBackupName f.name || f.ctime == 3 || 6 ≤ f.ctime) ∧
    (⟨"backups", "app_backup_3.db", "bytes3", 3, false⟩ : FSFile)
      ∈ cleanup_old_backups pruneDemoFS "backups" 10 :=
  ⟨by decide,
   (cleanup_old_backups_spec pruneDemoFS "backups" 10 (by unfold WellFormedFS; decide)
      (by unfold DistinctBackupCtimes backupsIn; decide)).2.1
     ⟨"backups", "app_backup_3.db", "bytes3", 3, false⟩ (by decide) rfl⟩

/-- C10: the backup lifecycle's frame: pruning deletes only `app_backup_*.db`
files of the directory — any other file survives untouched — pruning creates
nothing, and the backup listing reports only `app_backup_*.db` files actually
present in the directory. -/
theorem backup_frame_spec (fs : FS) (dir : String) (keep : Nat) (f : FSFile)
    (hf : f ∈ fs) (hnb : ¬(f.dir = dir ∧ isBackupName f.name = true)) :
    f ∈ cleanup_old_backups fs dir keep ∧
    (∀ g, g ∈ cleanup_old_backups fs dir keep → g ∈ fs) ∧
    (∀ b ∈ get_backup_list fs dir,
       isBackupName b.filename = true ∧ ∃ g ∈ fs, g.dir = dir ∧ g.name = b.filename) := by
  refine ⟨cleanup_frame fs dir keep f hf hnb,
    fun g hg => cleanup_subset fs dir keep g hg, ?_⟩
  intro b hb
  unfold get_backup_list at hb
  simp only [sortDescBy, List.mem_insertionSort] at hb
  rw [List.mem_map] at hb
  obtain ⟨g, hg, hgb⟩ := hb
  rw [List.mem_filter] at hg
  have h2 : g.dir = dir ∧ isBackupName g.name = true := by simpa using hg.2
  subst hgb
  exact ⟨h2.2, g, hg.1, h2.1, rfl⟩

/-- C10 witness: the foreign file `notes.txt` inside the backup directory
survives even a prune-everything run (keep 0), and every entry the listing
reports is an `app_backup_*.db` file present in the directory. -/
theorem backup_frame_spec_witness :
    (⟨"backups", "notes.txt", "keep me", 0, true⟩ : FSFile)
      ∈ cleanup_old_backups pruneDemoFS "backups" 0 ∧
    (∀ b ∈ get_backup_list pruneDemoFS "backups",
       isBackupName b.filename = true ∧
         ∃ g ∈ pruneDemoFS, g.dir = "backups" ∧ g.name = b.filename) :=
  ⟨(backup_frame_spec pruneDemoFS "backups" 0 ⟨"backups", "notes.txt", "keep me", 0, true⟩
      (by decide) (by decide)).1,
   (backup_frame_spec pruneDemoFS "backups" 0 ⟨"backups", "notes.txt", "keep me", 0, true⟩
      (by decide) (by decide)).2.2⟩

/-- An existing path can be looked up. -/
theorem fsFind_isSome_of_exists (fs : FS) (d n : String) (h : fsExists fs d n = true) :
    ∃ f, fsFind fs d n = some f := by
  unfold fsExists at h
  rw [List.any_eq_true] at h
  obtain ⟨x, hx, hp⟩ := h
  exact Option.isSome_iff_exists.mp (List.find?_isSome.mpr ⟨x, hx, hp⟩)

/-- Writing one path leaves every file of a different path in place. -/
theorem mem_writeFile_of_ne (fs : FS) (d n c : String) (t : Nat) (f : FSFile)
    (hf : f ∈ fs) (hne : ¬(f.dir = d ∧ f.name = n)) : f ∈ writeFile fs d n c t := by
  unfold writeFile
  by_cases hex : fsExists fs d n = true
  · rw [if_pos hex]
    rw [List.mem_map]
    refine ⟨f, hf, ?_⟩
    have hc : ¬((f.dir == d && f.name == n) = true) := by
      rw [Bool.and_eq_true, beq_iff_eq, beq_iff_eq]
      exact hne
    rw [if_neg hc]
  · rw [if_neg hex]
    exact List.mem_append_left _ hf

/-- create_database_backup on a state holding the live store, explicitly. -/
theorem create_database_backup_eq (fs : FS) (bdir ts : String) (now : Nat) (live : FSFile)
    (hlive : fsFind fs dbDir dbName = some live) :
    create_database_backup fs bdir ts now
      = .ok (cleanup_old_backups (writeFile fs bdir (backupFileName ts) live.content now)
               bdir 10,
             backupFileName ts) := by
  unfold create_database_backup
  rw [hlive]

/-- createBackupFS on a state holding the live store, explicitly. -/
theorem createBackupFS_eq (fs : FS) (bdir ts : String) (now : Nat) (live : FSFile)
    (hlive : fsFind fs dbDir dbName = some live) :
    createBackupFS fs bdir ts now
      = cleanup_old_backups (writeFile fs bdir (backupFileName ts) live.content now) bdir 10 := by
  unfold createBackupFS
  rw [create_database_backup_eq fs bdir ts now live hlive]

/-- restore on a state where both the requested path and the live store exist:
after the fresh backup, the requested path's fate in the pruned state decides
between overwrite and failure. -/
theorem restore_eq_of_found (fs : FS) (pdir pname ts : String) (now : Nat) (live : FSFile)
    (hlive : fsFind fs dbDir dbName = some live)
    (hp : fsExists fs pdir pname = true) :
    restore_database_from_backup fs pdir pname ts now
      = match fsFind (createBackupFS fs "backups" ts now) pdir pname with
        | none => (createBackupFS fs "backups" ts now, some .notFound)
        | some src =>
            (writeFile (createBackupFS fs "backups" ts now) dbDir dbName src.content now,
             none) := by
  unfold restore_database_from_backup
  rw [hp, if_neg (by simp), create_database_backup_eq fs "backups" ts now live hlive,
    createBackupFS_eq fs "backups" ts now live hlive]

/-- The fresh-backup state: backing up at a time strictly later than every
file's change time, under a fresh timestamp name, yields a well-formed state
that holds the new backup with the live bytes, still holds the live store,
keeps every non-backup file, only ever adds that one file, and keeps the
backup creation times distinct. -/
theorem createBackupFS_spec (fs : FS) (ts : String) (now : Nat) (live : FSFile)
    (hwf : WellFormedFS fs) (hdist : DistinctBackupCtimes fs "backups")
    (hclock : ∀ f ∈ fs, f.ctime < now)
    (hfresh : fsExists fs "backups" (backupFileName ts) = false)
    (hlive : fsFind fs dbDir dbName = some live) :
    WellFormedFS (createBackupFS fs "backups" ts now) ∧
    fsFind (createBackupFS fs "backups" ts now) "backups" (backupFileName ts)
      = some ⟨"backups", backupFileName ts, live.content, now, true⟩ ∧
    fsFind (createBackupFS fs "backups" ts now) dbDir dbName = some live ∧
    (∀ f ∈ fs, ¬(f.dir = "backups" ∧ isBackupName f.name = true) →
       f ∈ createBackupFS fs "backups" ts now) ∧
    (∀ g ∈ createBackupFS fs "backups" ts now,
       g ∈ fs ∨ g = ⟨"backups", backupFileName ts, live.content, now, true⟩) ∧
    DistinctBackupCtimes (createBackupFS fs "backups" ts now) "backups" ∧
    (∀ f ∈ fs, newerCount fs "backups" f + 1 < 10 →
       f ∈ createBackupFS fs "backups" ts now) := by
  have hCB := createBackupFS_eq fs "backups" ts now live hlive
  have hW := writeFile_append fs "backups" (backupFileName ts) live.content now hfresh
  rw [hCB, hW]
  have hwfW : WellFormedFS (fs ++ [⟨"backups", backupFileName ts, live.content, now, true⟩]) :=
    wellFormed_append fs ⟨"backups", backupFileName ts, live.content, now, true⟩ hfresh hwf
  have hBW : backupsIn (fs ++ [⟨"backups", backupFileName ts, live.content, now, true⟩]) "backups"
      = backupsIn fs "backups" ++ [⟨"backups", backupFileName ts, live.content, now, true⟩] := by
    unfold backupsIn
    rw [List.filter_append]
    congr 1
    simp [isBackupName_backupFileName]
  have hdistP : (backupsIn fs "backups").Pairwise (fun a b => a.ctime ≠ b.ctime) := hdist
  have hdistW : DistinctBackupCtimes
      (fs ++ [⟨"backups", backupFileName ts, live.content, now, true⟩]) "backups" := by
    show (backupsIn _ _).Pairwise _
    rw [hBW, List.pairwise_append]
    refine ⟨hdistP, List.pairwise_singleton _ _, ?_⟩
    intro a ha b hb
    simp only [List.mem_singleton] at hb
    subst hb
    have hafs : a ∈ fs := (List.mem_filter.mp ha).1
    have h1 := hclock a hafs
    simp only []
    omega
  have hmemW : (⟨"backups", backupFileName ts, live.content, now, true⟩ : FSFile)
      ∈ fs ++ [⟨"backups", backupFileName ts, live.content, now, true⟩] :=
    List.mem_append_right _ (List.mem_singleton_self _)
  have hcount0 : newerCount (fs ++ [⟨"backups", backupFileName ts, live.content, now, true⟩])
      "backups" ⟨"backups", backupFileName ts, live.content, now, true⟩ = 0 := by
    unfold newerCount
    rw [hBW, List.filter_append]
    have h1 : (backupsIn fs "backups").filter
        (fun g => (⟨"backups", backupFileName ts, live.content, now, true⟩ : FSFile).ctime
          < g.ctime) = [] := by
      rw [List.filter_eq_nil_iff]
      intro a ha
      have hafs : a ∈ fs := (List.mem_filter.mp ha).1
      have h2 := hclock a hafs
      simp only [decide_eq_true_eq]
      omega
    rw [h1]
    simp
  have hb0mem : (⟨"backups", backupFileName ts, live.content, now, true⟩ : FSFile)
      ∈ cleanup_old_backups (fs ++ [⟨"backups", backupFileName ts, live.content, now, true⟩])
          "backups" 10 := by
    rw [cleanup_keeps_iff _ "backups" 10 _ hwfW hdistW hmemW]
    rintro ⟨-, -, -, h10⟩
    rw [hcount0] at h10
    omega
  have hwf1 : WellFormedFS (cleanup_old_backups
      (fs ++ [⟨"backups", backupFileName ts, live.content, now, true⟩]) "backups" 10) :=
    wellFormed_cleanup _ "backups" 10 hwfW
  have hliveF := (fsFind_eq_some_iff fs dbDir dbName live hwf).mp hlive
  have hlivemem : live ∈ cleanup_old_backups
      (fs ++ [⟨"backups", backupFileName ts, live.content, now, true⟩]) "backups" 10 := by
    apply cleanup_frame
    · exact List.mem_append_left _ hliveF.1
    · rintro ⟨hd, -⟩
      rw [hliveF.2.1] at hd
      exact absurd hd (by decide)
  refine ⟨hwf1, ?_, ?_, ?_, ?_, ?_, ?_⟩
  · rw [fsFind_eq_some_iff _ _ _ _ hwf1]
    exact ⟨hb0mem, rfl, rfl⟩
  · rw [fsFind_eq_some_iff _ _ _ _ hwf1]
    exact ⟨hlivemem, hliveF.2.1, hliveF.2.2⟩
  · intro f hf hnb
    apply cleanup_frame
    · exact List.mem_append_left _ hf
    · exact hnb
  · intro g hg
    have h1 := cleanup_subset _ "backups" 10 g hg
    rcases List.mem_append.mp h1 with h | h
    · exact Or.inl h
    · exact Or.inr (List.mem_singleton.mp h)
  · show (backupsIn _ _).Pairwise _
    have hsub : backupsIn (cleanup_old_backups
        (fs ++ [⟨"backups", backupFileName ts, live.content, now, true⟩]) "backups" 10) "backups"
        |>.Sublist (backupsIn
          (fs ++ [⟨"backups", backupFileName ts, live.content, now, true⟩]) "backups") := by
      unfold backupsIn cleanup_old_backups
      exact List.Sublist.filter _ (List.filter_sublist _)
    have hdW : (backupsIn (fs ++ [⟨"backups", backupFileName ts, live.content, now, true⟩])
        "backups").Pairwise (fun a b => a.ctime ≠ b.ctime) := hdistW
    exact hdW.sublist hsub
  · intro f hf hcnt
    rw [cleanup_keeps_iff _ "backups" 10 _ hwfW hdistW (List.mem_append_left _ hf)]
    rintro ⟨-, -, -, h10⟩
    have hc2 : newerCount (fs ++ [⟨"backups", backupFileName ts, live.content, now, true⟩])
        "backups" f ≤ newerCount fs "backups" f + 1 := by
      unfold newerCount
      rw [hBW, List.filter_append, List.length_append]
      have h1 := List.length_filter_le (fun g : FSFile => decide (f.ctime < g.ctime))
        [⟨"backups", backupFileName ts, live.content, now, true⟩]
      simp only [List.length_singleton] at h1
      omega
    omega

/-- C1 amended: restore(p) with no file at p fails with NotFound leaving the
whole filesystem — the live store included — unchanged.  When p and the live
store both exist, restore first writes a fresh backup holding the current live
bytes (present, beside the untouched live store, in the pre-overwrite state
`createBackupFS fs "backups" ts now`), and only then overwrites the live store
with the bytes p holds after the fresh backup's retention pruning — p's
original bytes whenever p is not the fresh backup's own path.  When that
pruning has deleted p, restore instead fails with NotFound with the live store
still untouched: the claim's unconditional "then overwrites" holds only when p
survives the pruning. -/
theorem restore_database_from_backup_spec (fs : FS) (pdir pname ts : String) (now : Nat)
    (hwf : WellFormedFS fs) (hdist : DistinctBackupCtimes fs "backups")
    (hclock : ∀ f ∈ fs, f.ctime < now)
    (hfresh : fsExists fs "backups" (backupFileName ts) = false) :
    (fsExists fs pdir pname = false →
       restore_database_from_backup fs pdir pname ts now = (fs, some .notFound)) ∧
    (∀ pfile live, fsFind fs pdir pname = some pfile → fsFind fs dbDir dbName = some live →
       (fsFind (createBackupFS fs "backups" ts now) "backups" (backupFileName ts)
          = some ⟨"backups", backupFileName ts, live.content, now, true⟩ ∧
        fsFind (createBackupFS fs "backups" ts now) dbDir dbName = some live) ∧
       (∀ src, fsFind (createBackupFS fs "backups" ts now) pdir pname = some src →
          restore_database_from_backup fs pdir pname ts now
            = (writeFile (createBackupFS fs "backups" ts now) dbDir dbName src.content now,
               none) ∧
          (¬(pdir = "backups" ∧ pname = backupFileName ts) → src.content = pfile.content)) ∧
       (fsFind (createBackupFS fs "backups" ts now) pdir pname = none →
          restore_database_from_backup fs pdir pname ts now
            = (createBackupFS fs "backups" ts now, some .notFound))) := by
  constructor
  · intro h
    unfold restore_database_from_backup
    rw [h]
    simp
  · intro pfile live hp hlive
    obtain ⟨hwf1, hb0, hlive1, hframe, hdecomp, hdist1, -⟩ :=
      createBackupFS_spec fs ts now live hwf hdist hclock hfresh hlive
    have hpF := (fsFind_eq_some_iff fs pdir pname pfile hwf).mp hp
    have hex : fsExists fs pdir pname = true := by
      unfold fsExists
      rw [List.any_eq_true]
      exact ⟨pfile, hpF.1, by simp [hpF.2.1, hpF.2.2]⟩
    have hre := restore_eq_of_found fs pdir pname ts now live hlive hex
    refine ⟨⟨hb0, hlive1⟩, ?_, ?_⟩
    · intro src hsrc
      constructor
      · rw [hre, hsrc]
      · intro hnp
        have hsF := (fsFind_eq_some_iff _ pdir pname src hwf1).mp hsrc
        rcases hdecomp src hsF.1 with h | h
        · by_cases hspf : src = pfile
          · rw [hspf]
          · have hpw : fs.Pairwise (fun a b => ¬(a.dir = b.dir ∧ a.name = b.name)) := hwf
            have hsymP : Symmetric (fun a b : FSFile => ¬(a.dir = b.dir ∧ a.name = b.name)) :=
              fun _ _ hab h2 => hab ⟨h2.1.symm, h2.2.symm⟩
            exact absurd ⟨hsF.2.1.trans hpF.2.1.symm, hsF.2.2.trans hpF.2.2.symm⟩
              (hpw.forall hsymP h hpF.1 hspf)
        · exfalso
          apply hnp
          rw [h] at hsF
          exact ⟨hsF.2.1.symm, hsF.2.2.symm⟩
    · intro hnone
      rw [hre, hnone]

/-- C1 witness: on a state with the live store (bytes `cur`) and one old backup,
restoring that backup succeeds: the fresh backup is taken first, the old backup
survives the pruning, and the live store is overwritten with its bytes. -/
theorem restore_database_from_backup_spec_witness :
    restore_database_from_backup
        [⟨dbDir, dbName, "cur", 5, true⟩, ⟨"backups", "app_backup_1.db", "old", 1, true⟩]
        "backups" "app_backup_1.db" "9" 9
      = (writeFile (createBackupFS
            [⟨dbDir, dbName, "cur", 5, true⟩, ⟨"backups", "app_backup_1.db", "old", 1, true⟩]
            "backups" "9" 9) dbDir dbName "old" 9, none) :=
  ((restore_database_from_backup_spec
      [⟨dbDir, dbName, "cur", 5, true⟩, ⟨"backups", "app_backup_1.db", "old", 1, true⟩]
      "backups" "app_backup_1.db" "9" 9
      (by unfold WellFormedFS; decide)
      (by unfold DistinctBackupCtimes backupsIn; decide)
      (by decide) (by decide)).2
    ⟨"backups", "app_backup_1.db", "old", 1, true⟩ ⟨dbDir, dbName, "cur", 5, true⟩
    (by decide) (by decide)).2.1
    ⟨"backups", "app_backup_1.db", "old", 1, true⟩ (by decide) |>.1

/-- C1 counterexample: on a state holding the live store and ten backups, the
oldest backup exists at call time, yet restoring it fails with NotFound and the
live store is never overwritten: the fresh pre-restore backup pushes the target
beyond the keep-10 retention and the pruning deletes it before the copy. -/
theorem restore_prunes_target_counterexample :
    fsExists restoreDemoFS "backups" "app_backup_1.db" = true ∧
    (restore_database_from_backup restoreDemoFS "backups" "app_backup_1.db" "12" 12).2
      = some .notFound ∧
    fsFind (restore_database_from_backup restoreDemoFS "backups" "app_backup_1.db" "12" 12).1
      dbDir dbName = some ⟨dbDir, dbName, "current", 11, true⟩ ∧
    fsFind (restore_database_from_backup restoreDemoFS "backups" "app_backup_1.db" "12" 12).1
      "backups" "app_backup_1.db" = none :=
  ⟨by decide, by decide, by decide, by decide⟩

/-- writeFile preserves well-formedness: an overwrite keeps every path, an
append adds a fresh one. -/
theorem wellFormed_writeFile (fs : FS) (d n c : String) (t : Nat) (hwf : WellFormedFS fs) :
    WellFormedFS (writeFile fs d n c t) := by
  unfold writeFile
  by_cases hex : fsExists fs d n = true
  · rw [if_pos hex]
    have hpw : fs.Pairwise (fun a b => ¬(a.dir = b.dir ∧ a.name = b.name)) := hwf
    show (fs.map _).Pairwise _
    rw [List.pairwise_map]
    apply hpw.imp
    intro a b hab hc
    apply hab
    have hd1 : ∀ x : FSFile,
        (if x.dir == d && x.name == n then { x with content := c, ctime := t } else x).dir
          = x.dir := by
      intro x; split <;> rfl
    have hn1 : ∀ x : FSFile,
        (if x.dir == d && x.name == n then { x with content := c, ctime := t } else x).name
          = x.name := by
      intro x; split <;> rfl
    rw [hd1 a, hd1 b, hn1 a, hn1 b] at hc
    exact hc
  · rw [if_neg hex]
    exact wellFormed_append fs ⟨d, n, c, t, true⟩ (by simpa using hex) hwf

/-- Where each entry of writeFile comes from: an input entry, its overwritten
version, or the freshly created file. -/
theorem mem_writeFile (fs : FS) (d n c : String) (t : Nat) (f : FSFile)
    (hf : f ∈ writeFile fs d n c t) :
    (∃ a ∈ fs, f = a ∨ f = { a with content := c, ctime := t }) ∨ f = ⟨d, n, c, t, true⟩ := by
  unfold writeFile at hf
  by_cases hex : fsExists fs d n = true
  · rw [if_pos hex] at hf
    rw [List.mem_map] at hf
    obtain ⟨a, ha, hfa⟩ := hf
    left
    refine ⟨a, ha, ?_⟩
    by_cases hc : (a.dir == d && a.name == n) = true
    · right; rw [← hfa, if_pos hc]
    · left; rw [← hfa, if_neg hc]
  · rw [if_neg hex] at hf
    rcases List.mem_append.mp hf with h | h
    · exact Or.inl ⟨f, h, Or.inl rfl⟩
    · exact Or.inr (List.mem_singleton.mp h)

/-- The written path exists afterwards. -/
theorem fsExists_writeFile_self (fs : FS) (d n c : String) (t : Nat) :
    fsExists (writeFile fs d n c t) d n = true := by
  unfold writeFile
  by_cases hex : fsExists fs d n = true
  · rw [if_pos hex]
    unfold fsExists at hex ⊢
    rw [List.any_eq_true] at hex ⊢
    obtain ⟨a, ha, hp⟩ := hex
    refine ⟨{ a with content := c, ctime := t }, ?_, ?_⟩
    · rw [List.mem_map]
      exact ⟨a, ha, by rw [if_pos hp]⟩
    · simpa using hp
  · rw [if_neg hex]
    unfold fsExists
    rw [List.any_eq_true]
    exact ⟨⟨d, n, c, t, true⟩, List.mem_append_right _ (List.mem_singleton_self _), by simp⟩

/-- Reading the written path back yields the written bytes. -/
theorem fsFind_writeFile_self (fs : FS) (d n c : String) (t : Nat) (f : FSFile)
    (hf : fsFind (writeFile fs d n c t) d n = some f) : f.content = c := by
  unfold fsFind at hf
  have hmem := List.mem_of_find?_eq_some hf
  have hpath : f.dir = d ∧ f.name = n := by simpa using List.find?_some hf
  unfold writeFile at hmem
  by_cases hex : fsExists fs d n = true
  · rw [if_pos hex] at hmem
    rw [List.mem_map] at hmem
    obtain ⟨a, ha, hfa⟩ := hmem
    by_cases hc : (a.dir == d && a.name == n) = true
    · rw [if_pos hc] at hfa
      rw [← hfa]
    · rw [if_neg hc] at hfa
      subst hfa
      exact absurd (by simp [hpath.1, hpath.2]) hc
  · rw [if_neg hex] at hmem
    rcases List.mem_append.mp hmem with h | h
    · exfalso
      apply hex
      unfold fsExists
      rw [List.any_eq_true]
      exact ⟨f, h, by simp [hpath.1, hpath.2]⟩
    · rw [List.mem_singleton.mp h]

/-- Overwriting entries of another directory does not change which files a
backup filter selects. -/
theorem backupsList_map_overwrite (l : List FSFile) (d n c : String) (t : Nat) (dir : String)
    (hd : d ≠ dir) :
    (l.map (fun f => if f.dir == d && f.name == n then { f with content := c, ctime := t }
        else f)).filter (fun f => f.dir == dir && isBackupName f.name)
      = l.filter (fun f => f.dir == dir && isBackupName f.name) := by
  induction l with
  | nil => rfl
  | cons a l ih =>
    rw [List.map_cons, List.filter_cons, List.filter_cons, ih]
    by_cases hc : (a.dir == d && a.name == n) = true
    · rw [if_pos hc]
      have had : a.dir = d := by
        have h1 := hc
        rw [Bool.and_eq_true] at h1
        exact beq_iff_eq.mp h1.1
      have h1 : (({ a with content := c, ctime := t } : FSFile).dir == dir) = false := by
        simp [had, hd]
      have h2 : (a.dir == dir) = false := by
        simp [had, hd]
      simp [h1, h2]
    · rw [if_neg hc]

/-- Writing outside a directory leaves its backup listing unchanged. -/
theorem backupsIn_writeFile_other (fs : FS) (d n c : String) (t : Nat) (dir : String)
    (hd : d ≠ dir) :
    backupsIn (writeFile fs d n c t) dir = backupsIn fs dir := by
  unfold writeFile
  by_cases hex : fsExists fs d n = true
  · rw [if_pos hex]
    exact backupsList_map_overwrite fs d n c t dir hd
  · rw [if_neg hex]
    unfold backupsIn
    rw [List.filter_append]
    have h1 : ([⟨d, n, c, t, true⟩] : List FSFile).filter
        (fun f => f.dir == dir && isBackupName f.name) = [] := by
      simp [hd]
    rw [h1, List.append_nil]

/-- The listing's length is the number of backups in the directory. -/
theorem get_backup_list_length (fs : FS) (dir : String) :
    (get_backup_list fs dir).length = (backupsIn fs dir).length := by
  unfold get_backup_list sortDescBy
  rw [(List.perm_insertionSort _ _).length_eq, List.length_map]
  rfl

/-- With every backup deletable, pruning leaves exactly `min keep n` of the
directory's `n` backups. -/
theorem cleanup_backup_count (fs : FS) (dir : String) (keep : Nat)
    (hwf : WellFormedFS fs)
    (hdel : ∀ f ∈ backupsIn fs dir, f.deletable = true) :
    (backupsIn (cleanup_old_backups fs dir keep) dir).length
      = min keep (backupsIn fs dir).length := by
  have hperm : (sortDescBy FSFile.ctime (backupsIn fs dir)).Perm (backupsIn fs dir) :=
    List.perm_insertionSort _ _
  have h1 : backupsIn (cleanup_old_backups fs dir keep) dir
      = (backupsIn fs dir).filter (fun f =>
          !(((sortDescBy FSFile.ctime (backupsIn fs dir)).drop keep).any
             (fun v => samePath v f) && f.deletable)) := by
    unfold cleanup_old_backups backupsIn
    exact List.filter_comm _ _ _
  have h2 : (backupsIn fs dir).filter (fun f =>
        !(((sortDescBy FSFile.ctime (backupsIn fs dir)).drop keep).any
           (fun v => samePath v f) && f.deletable))
      = (backupsIn fs dir).filter (fun f =>
          !(decide (f ∈ (sortDescBy FSFile.ctime (backupsIn fs dir)).drop keep))) := by
    apply List.filter_congr
    intro f hf
    have hffs : f ∈ fs := (List.mem_filter.mp hf).1
    rw [hdel f hf, Bool.and_true]
    have hiff := any_samePath_iff fs dir keep f hwf hffs
    by_cases hin : f ∈ (sortDescBy FSFile.ctime (backupsIn fs dir)).drop keep
    · rw [hiff.mpr hin, decide_eq_true hin]
    · rw [decide_eq_false hin]
      cases hany : ((sortDescBy FSFile.ctime (backupsIn fs dir)).drop keep).any
          (fun v => samePath v f) with
      | false => rfl
      | true => exact absurd (hiff.mp hany) hin
  have hndB : (backupsIn fs dir).Nodup := by
    have hpw : fs.Pairwise (fun a b => ¬(a.dir = b.dir ∧ a.name = b.name)) := hwf
    have h3 : (backupsIn fs dir).Pairwise (fun a b => ¬(a.dir = b.dir ∧ a.name = b.name)) := by
      apply hpw.sublist
      unfold backupsIn
      exact List.filter_sublist _
    exact h3.imp (fun {a b} hab he => hab (by rw [he]; exact ⟨rfl, rfl⟩))
  have hndS : (sortDescBy FSFile.ctime (backupsIn fs dir)).Nodup := hperm.symm.nodup hndB
  have hnd2 : ((sortDescBy FSFile.ctime (backupsIn fs dir)).take keep
      ++ (sortDescBy FSFile.ctime (backupsIn fs dir)).drop keep).Nodup := by
    rw [List.take_append_drop]
    exact hndS
  rw [List.nodup_append] at hnd2
  have hfilS : (sortDescBy FSFile.ctime (backupsIn fs dir)).filter (fun f =>
        !(decide (f ∈ (sortDescBy FSFile.ctime (backupsIn fs dir)).drop keep)))
      = (sortDescBy FSFile.ctime (backupsIn fs dir)).take keep := by
    have hdisj : ((sortDescBy FSFile.ctime (backupsIn fs dir)).take keep).Disjoint
        ((sortDescBy FSFile.ctime (backupsIn fs dir)).drop keep) := hnd2.2.2
    generalize hold : (sortDescBy FSFile.ctime (backupsIn fs dir)).drop keep = old at hdisj ⊢
    conv_lhs => rw [← List.take_append_drop keep (sortDescBy FSFile.ctime (backupsIn fs dir))]
    rw [List.filter_append, hold]
    have hA : old.filter (fun f => !(decide (f ∈ old))) = [] := by
      rw [List.filter_eq_nil_iff]
      intro a ha
      simp [ha]
    have hB : ((sortDescBy FSFile.ctime (backupsIn fs dir)).take keep).filter (fun f =>
        !(decide (f ∈ old)))
        = (sortDescBy FSFile.ctime (backupsIn fs dir)).take keep := by
      rw [List.filter_eq_self]
      intro a ha
      simp only [Bool.not_eq_eq_eq_not, Bool.not_true, decide_eq_false_iff_not]
      exact fun hin => hdisj ha hin
    rw [hA, hB, List.append_nil]
  calc (backupsIn (cleanup_old_backups fs dir keep) dir).length
      = ((backupsIn fs dir).filter (fun f =>
          !(decide (f ∈ (sortDescBy FSFile.ctime (backupsIn fs dir)).drop keep)))).length := by
        rw [h1, h2]
    _ = ((sortDescBy FSFile.ctime (backupsIn fs dir)).filter (fun f =>
          !(decide (f ∈ (sortDescBy FSFile.ctime (backupsIn fs dir)).drop keep)))).length :=
        (hperm.symm.filter _).length_eq
    _ = ((sortDescBy FSFile.ctime (backupsIn fs dir)).take keep).length := by rw [hfilS]
    _ = min keep (sortDescBy FSFile.ctime (backupsIn fs dir)).length := List.length_take _ _
    _ = min keep (backupsIn fs dir).length := by rw [hperm.length_eq]

/-- C6 amended: create a backup, overwrite the live store, restore the backup —
the restore succeeds and the live store is again byte-identical to its content
at backup time; an automatic second backup holding the pre-restore bytes is
taken before the overwrite and is still listed afterwards; and the backup count
immediately before the restore completes is `min 10 (n + 1)` for `n` the count
right after the initial backup: an increase by exactly 1 only while fewer than
10 backups exist, the keep-10 retention capping it at 10 otherwise. -/
theorem backup_restore_round_trip (fs : FS) (live : FSFile) (ts1 ts2 c1 : String)
    (t1 t2 t3 : Nat)
    (hwf : WellFormedFS fs) (hdist : DistinctBackupCtimes fs "backups")
    (hlive : fsFind fs dbDir dbName = some live)
    (hdel : ∀ f ∈ fs, f.deletable = true)
    (hclock : ∀ f ∈ fs, f.ctime < t1) (h12 : t1 < t2) (h23 : t2 < t3)
    (hfresh1 : fsExists fs "backups" (backupFileName ts1) = false)
    (hfresh2 : fsExists fs "backups" (backupFileName ts2) = false)
    (hne : backupFileName ts1 ≠ backupFileName ts2) :
    (roundTripRun fs ts1 t1 c1 t2 ts2 t3).2 = none ∧
    (∀ f, fsFind (roundTripRun fs ts1 t1 c1 t2 ts2 t3).1 dbDir dbName = some f →
       f.content = live.content) ∧
    (∃ f, fsFind (roundTripRun fs ts1 t1 c1 t2 ts2 t3).1 dbDir dbName = some f) ∧
    (∃ b, fsFind (roundTripRun fs ts1 t1 c1 t2 ts2 t3).1 "backups" (backupFileName ts2)
        = some b ∧ b.content = c1) ∧
    (get_backup_list (roundTripRun fs ts1 t1 c1 t2 ts2 t3).1 "backups").length
      = min 10 ((get_backup_list (createBackupFS fs "backups" ts1 t1) "backups").length
          + 1) := by
  obtain ⟨hwf1, hb1, hlive1, hframe1, hdecomp1, hdist1, hkeep1⟩ :=
    createBackupFS_spec fs ts1 t1 live hwf hdist hclock hfresh1 hlive
  have hb1F := (fsFind_eq_some_iff _ "backups" (backupFileName ts1) _ hwf1).mp hb1
  have hwf2 : WellFormedFS (roundTripPre fs ts1 t1 c1 t2) :=
    wellFormed_writeFile _ dbDir dbName c1 t2 hwf1
  have hmem2 : ∀ f ∈ roundTripPre fs ts1 t1 c1 t2,
      (∃ a ∈ createBackupFS fs "backups" ts1 t1,
         f = a ∨ f = { a with content := c1, ctime := t2 }) ∨
      f = ⟨dbDir, dbName, c1, t2, true⟩ := by
    intro f hf
    exact mem_writeFile _ dbDir dbName c1 t2 f hf
  have hdel1 : ∀ f ∈ createBackupFS fs "backups" ts1 t1, f.deletable = true := by
    intro f hf
    rcases hdecomp1 f hf with h | h
    · exact hdel f h
    · rw [h]
  have hct1 : ∀ f ∈ createBackupFS fs "backups" ts1 t1, f.ctime ≤ t1 := by
    intro f hf
    rcases hdecomp1 f hf with h | h
    · exact Nat.le_of_lt (hclock f h)
    · rw [h]
  have hdel2 : ∀ f ∈ roundTripPre fs ts1 t1 c1 t2, f.deletable = true := by
    intro f hf
    rcases hmem2 f hf with ⟨a, ha, h | h⟩ | h
    · rw [h]; exact hdel1 a ha
    · rw [h]; exact hdel1 a ha
    · rw [h]
  have hclock2 : ∀ f ∈ roundTripPre fs ts1 t1 c1 t2, f.ctime < t3 := by
    intro f hf
    rcases hmem2 f hf with ⟨a, ha, h | h⟩ | h
    · rw [h]
      have := hct1 a ha
      omega
    · rw [h]
      show t2 < t3
      omega
    · rw [h]
      show t2 < t3
      omega
  have hBfs2 : backupsIn (roundTripPre fs ts1 t1 c1 t2) "backups"
      = backupsIn (createBackupFS fs "backups" ts1 t1) "backups" :=
    backupsIn_writeFile_other _ dbDir dbName c1 t2 "backups" (by decide)
  have hdist2 : DistinctBackupCtimes (roundTripPre fs ts1 t1 c1 t2) "backups" := by
    show (backupsIn _ _).Pairwise _
    rw [hBfs2]
    exact hdist1
  have hfresh2' : fsExists (roundTripPre fs ts1 t1 c1 t2) "backups" (backupFileName ts2)
      = false := by
    rw [fsExists_eq_false_iff]
    intro f hf hc
    rcases hmem2 f hf with ⟨a, ha, h | h⟩ | h
    · rw [h] at hc
      rcases hdecomp1 a ha with h2 | h2
      · exact (fsExists_eq_false_iff fs _ _).mp hfresh2 a h2 hc
      · rw [h2] at hc
        exact hne hc.2
    · rw [h] at hc
      have hc' : a.dir = "backups" ∧ a.name = backupFileName ts2 := hc
      rcases hdecomp1 a ha with h2 | h2
      · exact (fsExists_eq_false_iff fs _ _).mp hfresh2 a h2 hc'
      · rw [h2] at hc'
        exact hne hc'.2
    · rw [h] at hc
      have hc' : dbDir = "backups" := hc.1
      exact absurd hc' (by decide)
  have hexlive2 : fsExists (roundTripPre fs ts1 t1 c1 t2) dbDir dbName = true :=
    fsExists_writeFile_self _ dbDir dbName c1 t2
  obtain ⟨live2, hlive2⟩ := fsFind_isSome_of_exists _ dbDir dbName hexlive2
  have hlive2c : live2.content = c1 := fsFind_writeFile_self _ dbDir dbName c1 t2 live2 hlive2
  have hb1fs2 : (⟨"backups", backupFileName ts1, live.content, t1, true⟩ : FSFile)
      ∈ roundTripPre fs ts1 t1 c1 t2 := by
    apply mem_writeFile_of_ne
    · exact hb1F.1
    · rintro ⟨hd, -⟩
      have hd' : "backups" = dbDir := hd
      exact absurd hd' (by decide)
  have hex2 : fsExists (roundTripPre fs ts1 t1 c1 t2) "backups" (backupFileName ts1)
      = true := by
    unfold fsExists
    rw [List.any_eq_true]
    exact ⟨_, hb1fs2, by simp⟩
  obtain ⟨hwf3, hb2, hlive3, hframe3, hdecomp3, hdist3, hkeep3⟩ :=
    createBackupFS_spec (roundTripPre fs ts1 t1 c1 t2) ts2 t3 live2 hwf2 hdist2 hclock2
      hfresh2' hlive2
  have hcnt1 : newerCount (roundTripPre fs ts1 t1 c1 t2) "backups"
      ⟨"backups", backupFileName ts1, live.content, t1, true⟩ = 0 := by
    unfold newerCount
    rw [hBfs2, List.length_eq_zero, List.filter_eq_nil_iff]
    intro g hg
    have hgfs1 : g ∈ createBackupFS fs "backups" ts1 t1 := (List.mem_filter.mp hg).1
    have h1 := hct1 g hgfs1
    simp only [decide_eq_true_eq]
    show ¬(t1 < g.ctime)
    omega
  have hb1fs3 : (⟨"backups", backupFileName ts1, live.content, t1, true⟩ : FSFile)
      ∈ createBackupFS (roundTripPre fs ts1 t1 c1 t2) "backups" ts2 t3 := by
    apply hkeep3 _ hb1fs2
    rw [hcnt1]
    omega
  have hsrc : fsFind (createBackupFS (roundTripPre fs ts1 t1 c1 t2) "backups" ts2 t3)
      "backups" (backupFileName ts1)
      = some ⟨"backups", backupFileName ts1, live.content, t1, true⟩ :=
    (fsFind_eq_some_iff _ _ _ _ hwf3).mpr ⟨hb1fs3, rfl, rfl⟩
  have hre := restore_eq_of_found (roundTripPre fs ts1 t1 c1 t2) "backups"
    (backupFileName ts1) ts2 t3 live2 hlive2 hex2
  have hrun : roundTripRun fs ts1 t1 c1 t2 ts2 t3
      = (writeFile (createBackupFS (roundTripPre fs ts1 t1 c1 t2) "backups" ts2 t3)
           dbDir dbName live.content t3, none) := by
    unfold roundTripRun
    rw [hre, hsrc]
  refine ⟨?_, ?_, ?_, ?_, ?_⟩
  · rw [hrun]
  · intro f hf
    rw [hrun] at hf
    exact fsFind_writeFile_self _ dbDir dbName live.content t3 f hf
  · rw [hrun]
    exact fsFind_isSome_of_exists _ dbDir dbName
      (fsExists_writeFile_self _ dbDir dbName live.content t3)
  · rw [hrun]
    refine ⟨⟨"backups", backupFileName ts2, live2.content, t3, true⟩, ?_, hlive2c⟩
    have hwfF : WellFormedFS (writeFile
        (createBackupFS (roundTripPre fs ts1 t1 c1 t2) "backups" ts2 t3)
        dbDir dbName live.content t3) :=
      wellFormed_writeFile _ dbDir dbName live.content t3 hwf3
    rw [fsFind_eq_some_iff _ _ _ _ hwfF]
    refine ⟨?_, rfl, rfl⟩
    apply mem_writeFile_of_ne
    · exact ((fsFind_eq_some_iff _ _ _ _ hwf3).mp hb2).1
    · rintro ⟨hd, -⟩
      have hd' : "backups" = dbDir := hd
      exact absurd hd' (by decide)
  · rw [hrun]
    have h1 : backupsIn (writeFile
        (createBackupFS (roundTripPre fs ts1 t1 c1 t2) "backups" ts2 t3)
        dbDir dbName live.content t3) "backups"
        = backupsIn (createBackupFS (roundTripPre fs ts1 t1 c1 t2) "backups" ts2 t3)
            "backups" :=
      backupsIn_writeFile_other _ dbDir dbName live.content t3 "backups" (by decide)
    rw [get_backup_list_length, get_backup_list_length, h1]
    have hCB2 := createBackupFS_eq (roundTripPre fs ts1 t1 c1 t2) "backups" ts2 t3 live2 hlive2
    have hW2 := writeFile_append (roundTripPre fs ts1 t1 c1 t2) "backups" (backupFileName ts2)
      live2.content t3 hfresh2'
    rw [hCB2, hW2]
    have hwfW2 : WellFormedFS (roundTripPre fs ts1 t1 c1 t2
        ++ [⟨"backups", backupFileName ts2, live2.content, t3, true⟩]) :=
      wellFormed_append _ _ hfresh2' hwf2
    have hBW2 : backupsIn (roundTripPre fs ts1 t1 c1 t2
        ++ [⟨"backups", backupFileName ts2, live2.content, t3, true⟩]) "backups"
        = backupsIn (roundTripPre fs ts1 t1 c1 t2) "backups"
          ++ [⟨"backups", backupFileName ts2, live2.content, t3, true⟩] := by
      unfold backupsIn
      rw [List.filter_append]
      congr 1
      simp [isBackupName_backupFileName]
    have hdelW2 : ∀ f ∈ backupsIn (roundTripPre fs ts1 t1 c1 t2
        ++ [⟨"backups", backupFileName ts2, live2.content, t3, true⟩]) "backups",
        f.deletable = true := by
      intro f hf
      have h2 := (List.mem_filter.mp hf).1
      rcases List.mem_append.mp h2 with h | h
      · exact hdel2 f h
      · rw [List.mem_singleton.mp h]
    rw [cleanup_backup_count _ "backups" 10 hwfW2 hdelW2, hBW2, List.length_append, hBfs2]
    rfl

/-- C6 witness: with one pre-existing backup, the round trip succeeds and the
listing immediately before the restore completes holds min 10 (2 + 1) = 3
backups — here the count does increase by exactly 1. -/
theorem backup_restore_round_trip_witness :
    (roundTripRun [⟨dbDir, dbName, "v1", 5, true⟩,
        ⟨"backups", "app_backup_1.db", "old1", 1, true⟩] "6" 6 "v2" 7 "8" 8).2 = none ∧
    (get_backup_list (roundTripRun [⟨dbDir, dbName, "v1", 5, true⟩,
        ⟨"backups", "app_backup_1.db", "old1", 1, true⟩] "6" 6 "v2" 7 "8" 8).1
        "backups").length
      = min 10 ((get_backup_list (createBackupFS [⟨dbDir, dbName, "v1", 5, true⟩,
          ⟨"backups", "app_backup_1.db", "old1", 1, true⟩] "backups" "6" 6)
          "backups").length + 1) :=
  ⟨(backup_restore_round_trip [⟨dbDir, dbName, "v1", 5, true⟩,
      ⟨"backups", "app_backup_1.db", "old1", 1, true⟩] ⟨dbDir, dbName, "v1", 5, true⟩
      "6" "8" "v2" 6 7 8
      (by unfold WellFormedFS; decide) (by unfold DistinctBackupCtimes backupsIn; decide)
      (by decide) (by decide) (by decide) (by decide) (by decide) (by decide) (by decide)
      (by decide)).1,
   (backup_restore_round_trip [⟨dbDir, dbName, "v1", 5, true⟩,
      ⟨"backups", "app_backup_1.db", "old1", 1, true⟩] ⟨dbDir, dbName, "v1", 5, true⟩
      "6" "8" "v2" 6 7 8
      (by unfold WellFormedFS; decide) (by unfold DistinctBackupCtimes backupsIn; decide)
      (by decide) (by decide) (by decide) (by decide) (by decide) (by decide) (by decide)
      (by decide)).2.2.2.2⟩

/-- C6 counterexample: starting from ten existing backups, the initial
createBackup leaves 10 listed backups after its own pruning, the restore of its
returned path succeeds, yet immediately before that restore completes the
listing still holds 10 backups, not 10 + 1: the automatic second backup's
retention pruning cancels the increase, refuting "increases by exactly 1". -/
theorem backup_count_not_incremented_counterexample :
    (get_backup_list (createBackupFS restoreDemoFS "backups" "12" 12) "backups").length
      = 10 ∧
    (roundTripRun restoreDemoFS "12" 12 "changed" 13 "14" 14).2 = none ∧
    (get_backup_list (roundTripRun restoreDemoFS "12" 12 "changed" 13 "14" 14).1
        "backups").length
      ≠ (get_backup_list (createBackupFS restoreDemoFS "backups" "12" 12) "backups").length
          + 1 :=
  ⟨by decide, by decide, by decide⟩

end School
